import Mathlib

set_option maxRecDepth 4000

/-
Verification development for the infact typed-variable environment
(src/infact/environment.h).

The development shallowly embeds the concrete code of environment.h:
the ValueString formatter templates, the VarMapImpl generic binding-table
core (Get, Defined, Set, Print, ReadAndSetFromExistingVariable), the
scalar VarMap specialization and the VarMap of vectors
specialization with its brace/comma grammar loop.

The C++ templates are instantiated at the primitive types the
interpreter uses (int, bool, string) via the type-code STy; the
unchecked dynamic_cast between concrete table kinds becomes a checked
cast on the Table sum.  C++ in-place mutation becomes explicit state
passing, and calls to the external error sink Error(...) become an
Except error result carrying the data of the corresponding call site.

The Environment implementation and the per-type Initializer are outside
this header (only their abstract interfaces appear in environment.h);
they are modelled from the spec where noted.
-/

/-- Type codes for the primitive scalar value types the interpreter
instantiates the VarMap templates at. -/
inductive STy
  | sInt
  | sBool
  | sStr
deriving DecidableEq

/-- Interpretation of a scalar type code as a Lean type. -/
def STy.interp : STy → Type
  | .sInt => Int
  | .sBool => Bool
  | .sStr => String

instance (s : STy) : DecidableEq s.interp := by
  cases s <;> (dsimp [STy.interp]; infer_instance)

/-- Default value of a scalar type: models the value-initialization
T() performed by ReadAndSetFromExistingVariable before calling Get. -/
def STy.dflt : (s : STy) → s.interp
  | .sInt => (0 : Int)
  | .sBool => false
  | .sStr => ""

/-- Lookup in an association list; models unordered_map find. -/
def lookupA {α : Type} : List (String × α) → String → Option α
  | [], _ => none
  | (k2, v) :: t, k => if k2 = k then some v else lookupA t k

/-- Replace the value stored under a key that is present, keeping its
position; appends when absent (that case is unreachable in insertA). -/
def updateA {α : Type} : List (String × α) → String → α → List (String × α)
  | [], k, v => [(k, v)]
  | (k2, v2) :: t, k, v =>
    if k2 = k then (k, v) :: t else (k2, v2) :: updateA t k v

/-- Models the store vars_[varname] = value on a std::unordered_map.
A present key is updated in place.  A fresh key is linked at the front
of the iteration order, as the libstdc++ hashtable does (it links new
nodes at the head of the bucket list); the C++ standard leaves the
iteration order of unordered_map unspecified, and in particular it is
not insertion order. -/
def insertA {α : Type} (l : List (String × α)) (k : String) (v : α) :
    List (String × α) :=
  if (lookupA l k).isSome then updateA l k v else (k, v) :: l

/-- ValueString of int values: the generic template body, which streams
the value to an ostringstream (decimal rendering for int). -/
def valueStringInt (value : Int) : String := toString value

/-- ValueString specialized at string: wraps the value in double
quotes. -/
def valueStringString (value : String) : String := "\"" ++ value ++ "\""

/-- ValueString specialized at bool: the literal true or false. -/
def valueStringBool (value : Bool) : String :=
  if value then "true" else "false"

/-- The iterator loop inside ValueString of vectors: after the first
element has been streamed, every remaining element is streamed with a
preceding comma-space separator. -/
def vsVectorLoop {T : Type} (f : T → String) : String → List T → String
  | acc, [] => acc
  | acc, e :: rest => vsVectorLoop f (acc ++ ", " ++ f e) rest

/-- ValueString specialized at vectors: streams an opening
brace, the first element if any, the remaining elements each preceded
by a comma-space separator, then a closing brace.  The element
formatter f is the ValueString of the element type, applied recursively
to each element. -/
def valueStringVector {T : Type} (f : T → String) (value : List T) : String :=
  "\x7b" ++
    (match value with
     | [] => ""
     | x :: xs => vsVectorLoop f (f x) xs) ++ "\x7d"

/-- The generic binding-table core VarMapImpl: the declared type name,
the primitive flag, and the variable-to-value map vars_ (association
list modelling the unordered_map; see insertA for the order). -/
structure VarMapImpl (T : Type) where
  name : String
  is_primitive : Bool
  vars : List (String × T)

/-- VarMapImpl::Get with its out-parameter: returns the success flag
and the final contents of the out-parameter, which is assigned the
stored value on success and left untouched on failure. -/
def VarMapImpl.Get {T : Type} (m : VarMapImpl T) (varname : String)
    (value : T) : Bool × T :=
  match lookupA m.vars varname with
  | none => (false, value)
  | some v => (true, v)

/-- VarMapImpl::Defined: whether vars_ contains the name. -/
def VarMapImpl.Defined {T : Type} (m : VarMapImpl T) (varname : String) :
    Bool :=
  (lookupA m.vars varname).isSome

/-- VarMapImpl::Set: vars_[varname] = value. -/
def VarMapImpl.Set {T : Type} (m : VarMapImpl T) (varname : String)
    (value : T) : VarMapImpl T :=
  { m with vars := insertA m.vars varname value }

/-- VarMapImpl::Print: streams, for each entry of vars_ in iteration
order, the type name, a space, the variable name, a space-equals-space,
the formatted value, and a semicolon-newline.  The value formatter
value_string is the ValueString instantiated at T.  The method is const:
it returns only the produced text. -/
def VarMapImpl.Print {T : Type} (m : VarMapImpl T)
    (value_string : T → String) : String :=
  m.vars.foldl
    (fun os p =>
      os ++ m.name ++ " " ++ p.1 ++ " = " ++ value_string p.2 ++ ";\n")
    ""

/-- The type-erasure boundary: a concrete binding table is either a
scalar VarMap at a scalar type or a vector VarMap at an element scalar
type (carrying its element_typename_ member).  This closed sum stands
for the open set of VarMapBase subclasses the Environment owns. -/
inductive Table where
  | sc (s : STy) (m : VarMapImpl s.interp)
  | vec (s : STy) (element_typename : String) (m : VarMapImpl (List s.interp))

/-- Models dynamic_cast of a VarMapBase pointer to the scalar
VarMap of T: succeeds exactly when the table is the scalar kind at the
same T. -/
def Table.castScalar (s : STy) : Table → Option (VarMapImpl s.interp)
  | .sc s2 m => if h : s2 = s then some (h ▸ m) else none
  | .vec _ _ _ => none

/-- Models dynamic_cast of a VarMapBase pointer to the vector
VarMap of vector of T: succeeds exactly when the table is the vector
kind at the same element T. -/
def Table.castVec (s : STy) : Table → Option (VarMapImpl (List s.interp))
  | .sc _ _ => none
  | .vec s2 _ m => if h : s2 = s then some (h ▸ m) else none

/-- Modelled from the spec: the Environment implementation is not part
of environment.h (only the abstract Environment interface is), so its
state is taken from spec section 3: a mapping from type name to binding
table in registration order, and the name-to-type index mapping each
variable name to its type name. -/
structure Env where
  tables : List (String × Table)
  types : List (String × String)

/-- Modelled from the spec (section 4.2): Environment::Defined is true
iff the name-to-type index contains varname. -/
def Env.Defined (env : Env) (varname : String) : Bool :=
  (lookupA env.types varname).isSome

/-- Modelled from the spec (section 4.2): Environment::GetVarMap
resolves varname through the name-to-type index to the table holding
it; none models the NotFoundError for an undefined name. -/
def Env.GetVarMap (env : Env) (varname : String) : Option Table :=
  match lookupA env.types varname with
  | none => none
  | some ty => lookupA env.tables ty

/-- Modelled from the spec (section 4.2): Environment::GetVarMapForType
resolves a type name to its registered table.  The factory base-type
resolution for Factory-constructible concrete type names lives in the
external factory registry and is not modelled: type names resolve
directly. -/
def Env.GetVarMapForType (env : Env) (ty : String) : Option Table :=
  lookupA env.tables ty

/-- Modelled from the spec (sections 3 and 4.2): Environment::Copy is a
structural copy whose tables value-copy their entries; on this pure
state representation a structural copy is the value itself. -/
def Env.Copy (env : Env) : Env := env

/-- The StreamTokenizer interface surface used by environment.h: the
remaining tokens, the most recently consumed token (PeekPrev), and the
index of the next token, standing for the stream positions that
PeekTokenStart and PeekPrevTokenStart report. -/
structure STok where
  toks : List String
  prev : String
  pos : Nat

/-- StreamTokenizer::Peek: the next token without consuming it. -/
def STok.Peek (st : STok) : String := st.toks.head?.getD ""

/-- The state change of StreamTokenizer::Next: the next token is
consumed, becomes the PeekPrev token, and the position advances. -/
def STok.adv (st : STok) : STok :=
  { toks := st.toks.tail, prev := st.Peek, pos := st.pos + 1 }

/-- The distinct failure outcomes of the embedded operations.  Each
constructor stands for one call site of the external error sink
Error(...) in environment.h, carrying the data interpolated into that
message; initError stands for a failure of the external per-type
Initializer; nullDeref marks the undefined behavior of dereferencing
the unchecked dynamic_cast result in the vector element loop;
outOfFuel is an artifact of the explicit recursion bound and
corresponds to no program behavior. -/
inductive PError where
  | syntaxErrorOpenBrace (pos : Nat) (found : String)
  | syntaxErrorSep (pos : Nat) (found : String)
  | elementInitError (idx : Nat) (varname : String)
  | initError (pos : Nat) (found : String)
  | unknownTypeError (ty : String)
  | nullDeref
  | outOfFuel
deriving DecidableEq

/-- Decimal digit value of a character. -/
def digitVal (c : Char) : Option Nat :=
  if c.isDigit then some (c.toNat - 48) else none

/-- Accumulating decimal parse of a digit string. -/
def parseNatChars : Nat → List Char → Option Nat
  | acc, [] => some acc
  | acc, c :: rest =>
    match digitVal c with
    | some d => parseNatChars (acc * 10 + d) rest
    | none => none

/-- Decimal integer literal parse with optional leading minus sign. -/
def parseIntLit (tok : String) : Option Int :=
  match tok.data with
  | [] => none
  | c :: rest =>
    if c = '-' then
      match rest with
      | [] => none
      | _ => (parseNatChars 0 rest).map (fun n => -(n : Int))
    else (parseNatChars 0 tok.data).map (fun n => (n : Int))

/-- Modelled from the spec (section 6): the per-type Initializer
(stream-init.h, not part of environment.h) parses exactly one literal
of the given type from the stream; a single token yields the value, or
no value when the token is not a literal of that type.  String-typed
tokens are delivered by the tokenizer with quotes already stripped, so
any token is a string literal. -/
def parseLit : (s : STy) → String → Option s.interp
  | .sInt, tok => parseIntLit tok
  | .sBool, tok =>
    if tok = "true" then some true
    else if tok = "false" then some false
    else none
  | .sStr, tok => some tok

/-- VarMapImpl::ReadAndSetFromExistingVariable, generic in the concrete
Derived table kind through the cast argument that models
dynamic_cast to Derived, and in the value-initialized out-parameter
dflt that models T().  The none result models the false return (no
token consumed; the caller falls through to type-specific parsing); a
some result models the true return, carrying the updated this table
and stream. -/
def readAndSetFromExistingVariable {T : Type}
    (cast : Table → Option (VarMapImpl T)) (dflt : T)
    (env : Env) (m : VarMapImpl T) (varname : String) (st : STok) :
    Option (VarMapImpl T × STok) :=
  if env.Defined st.Peek then
    match env.GetVarMap st.Peek with
    | none => some (m, st)
    | some var_map =>
      match cast var_map with
      | some typed_var_map =>
        let rhs_variable := st.Peek
        let st2 := st.adv
        match typed_var_map.Get rhs_variable dflt with
        | (true, value) => some (m.Set varname value, st2)
        | (false, _) => some (m, st2)
      | none => some (m, st)
  else
    none

/-- The scalar VarMap of T ReadAndSet: try the alias path first; on
fall-through, run the external Initializer (modelled by parseLit, one
token) and bind varname to the parsed value. -/
def scalarReadAndSet (env : Env) (s : STy) (m : VarMapImpl s.interp)
    (varname : String) (st : STok) :
    Except PError (VarMapImpl s.interp × STok) :=
  match readAndSetFromExistingVariable (Table.castScalar s) s.dflt
      env m varname st with
  | some (m2, st2) => .ok (m2, st2)
  | none =>
    match parseLit s st.Peek with
    | some value => .ok (m.Set varname value, st.adv)
    | none => .error (.initError st.pos st.Peek)

/-- The synthesized internal element name of the vector loop: four
underscores, varname, one underscore, the element counter, four
underscores. -/
def synthName (varname : String) (idx : Nat) : String :=
  "____" ++ varname ++ "_" ++ toString idx ++ "____"

/-- The element loop of the vector VarMap ReadAndSet.  recur is the
recursive Environment::ReadAndSet entry used for each element; fuel
bounds the number of loop iterations (the stream shrinks every
iteration, so any fuel above the stream length is enough).  Each
iteration: copy the owning environment, synthesize the element name,
recursively read the element into the copy, locate the element type
table in the copy and downcast it (the C++ dereferences the downcast
result without a null check: a none here is the nullDeref outcome),
fetch the synthesized binding (failure is the elementInitError call
site with the element index and varname), append the value, and
require a comma or closing-brace separator (failure is the second
syntaxError call site, reporting PeekTokenStart and the peeked token),
consuming the comma if present.  When the closing brace is reached it
is consumed and varname is bound to the accumulated vector. -/
def vecLoopF (recur : Env → String → STok → String → Except PError (Env × STok))
    (s : STy) (element_typename : String) :
    Nat → Env → VarMapImpl (List s.interp) → String → STok →
    List s.interp → Nat → Except PError (VarMapImpl (List s.interp) × STok)
  | 0, _, _, _, _, _, _ => .error .outOfFuel
  | fuel + 1, env, m, varname, st, value, element_idx =>
    if st.Peek ≠ "\x7d" then
      let env_ptr := env.Copy
      let element_name := synthName varname element_idx
      match recur env_ptr element_name st element_typename with
      | .error e => .error e
      | .ok (env2, st2) =>
        match env2.GetVarMapForType element_typename with
        | none => .error .nullDeref
        | some element_var_map =>
          match Table.castScalar s element_var_map with
          | none => .error .nullDeref
          | some typed_element_var_map =>
            match typed_element_var_map.Get element_name s.dflt with
            | (true, element) =>
              let value2 := value ++ [element]
              if st2.Peek ≠ "," ∧ st2.Peek ≠ "\x7d" then
                .error (.syntaxErrorSep st2.pos st2.Peek)
              else
                let st3 := if st2.Peek = "," then st2.adv else st2
                vecLoopF recur s element_typename fuel env m varname st3
                  value2 (element_idx + 1)
            | (false, _) => .error (.elementInitError element_idx varname)
    else
      .ok (m.Set varname value, st.adv)

/-- The vector VarMap of vector of T ReadAndSet: try the alias path
against the whole-vector bindings (the value-initialized out-parameter
is the empty vector); on fall-through require an opening brace (the
first syntaxError call site reports PeekPrevTokenStart and the PeekPrev
token when it is absent) and run the element loop from an empty result
vector and element counter zero. -/
def vecReadAndSetF
    (recur : Env → String → STok → String → Except PError (Env × STok))
    (fuel : Nat) (env : Env) (s : STy) (element_typename : String)
    (m : VarMapImpl (List s.interp)) (varname : String) (st : STok) :
    Except PError (VarMapImpl (List s.interp) × STok) :=
  match readAndSetFromExistingVariable (Table.castVec s)
      ([] : List s.interp) env m varname st with
  | some (m2, st2) => .ok (m2, st2)
  | none =>
    if st.Peek = "\x7b" then
      vecLoopF recur s element_typename fuel env m varname st.adv [] 0
    else
      .error (.syntaxErrorOpenBrace (st.pos - 1) st.prev)

/-- Modelled from the spec (sections 3, 4.2 and 9): the Environment
implementation behind the abstract interface of environment.h routes
ReadAndSet to the table registered for the declared type name (failing
with UnknownTypeError when none is registered), records varname in the
name-to-type index when it routes the call, and stores the updated
table back; this index-then-delegate order is what makes a name defined
in the index but with no stored value possible, the known edge case of
section 9.  fuel bounds the recursion depth through vector element
parsing. -/
def EnvReadAndSet : Nat → Env → String → STok → String →
    Except PError (Env × STok)
  | 0, _, _, _, _ => .error .outOfFuel
  | fuel + 1, env, varname, st, ty =>
    match env.GetVarMapForType ty with
    | none => .error (.unknownTypeError ty)
    | some tbl =>
      let env2 : Env := { env with types := insertA env.types varname ty }
      match tbl with
      | .sc s m =>
        match scalarReadAndSet env2 s m varname st with
        | .error e => .error e
        | .ok (m2, st2) =>
          .ok ({ env2 with tables := updateA env2.tables ty (.sc s m2) }, st2)
      | .vec s ety m =>
        match vecReadAndSetF (EnvReadAndSet fuel) fuel env2 s ety m
            varname st with
        | .error e => .error e
        | .ok (m2, st2) =>
          .ok ({ env2 with tables := updateA env2.tables ty (.vec s ety m2) },
               st2)

/-- The vector VarMap ReadAndSet with the recursive element parse tied
to the Environment ReadAndSet at the same fuel. -/
def vecReadAndSet (fuel : Nat) (env : Env) (s : STy)
    (element_typename : String) (m : VarMapImpl (List s.interp))
    (varname : String) (st : STok) :
    Except PError (VarMapImpl (List s.interp) × STok) :=
  vecReadAndSetF (EnvReadAndSet fuel) fuel env s element_typename m varname st

/-- The token sequence of the inside of a brace-enclosed list: the
element tokens separated by comma tokens. -/
def commaSep : List String → List String
  | [] => []
  | [e] => [e]
  | e :: rest => e :: "," :: commaSep rest

/-- Modelled from the spec, for refinement comparison only: one Print
output line as the spec words it, typeName space varname space equals
space formattedValue semicolon newline. -/
def specPrintLine (tyName varname formatted : String) : String :=
  tyName ++ " " ++ varname ++ " = " ++ formatted ++ ";\n"

/-- Modelled from the spec, for refinement comparison only: the
comma-space-separated join of rendered elements as the spec words the
braced sequence e0, e1, up to en. -/
def specCommaJoin : List String → String
  | [] => ""
  | [x] => x
  | x :: xs => x ++ ", " ++ specCommaJoin xs

/-- Modelled from the spec, for refinement comparison only: the braced
rendering of a sequence. -/
def specBraceList (l : List String) : String :=
  "\x7b" ++ specCommaJoin l ++ "\x7d"

/-- An empty int binding table. -/
def mIntEmpty : VarMapImpl Int := ⟨"int", true, []⟩

/-- An int binding table with x bound to 5. -/
def mIntX : VarMapImpl Int := ⟨"int", true, [("x", (5 : Int))]⟩

/-- An empty string binding table. -/
def mStrEmpty : VarMapImpl String := ⟨"string", true, []⟩

/-- An empty vector-of-int binding table. -/
def mVecIntEmpty : VarMapImpl (List Int) := ⟨"int[]", true, []⟩

/-- An environment with an int table and an int-vector table and no
bound variables. -/
def envVec : Env :=
  ⟨[("int", .sc .sInt mIntEmpty), ("int[]", .vec .sInt "int" mVecIntEmpty)],
   []⟩

/-- An environment whose int table binds x to 5. -/
def envAlias : Env := ⟨[("int", .sc .sInt mIntX)], [("x", "int")]⟩

/-- An environment with an int table and a string table where z is a
string variable: the alias target of mismatched type.  z is recorded in
the name-to-type index but carries no stored value, so it also
exercises the defined-but-unset edge case. -/
def envMismatch : Env :=
  ⟨[("int", .sc .sInt mIntEmpty), ("string", .sc .sStr mStrEmpty)],
   [("z", "string")]⟩

/-- An environment whose index defines x as an int while the int table
stores no value for it: the defined-but-unset alias source. -/
def envUnsetX : Env := ⟨[("int", .sc .sInt mIntEmpty)], [("x", "int")]⟩

/-- The environment state produced by the inner element ReadAndSet of
the mismatched-alias scenario: the int table is written back unchanged
and the synthesized element name has been recorded in the index. -/
def envAfterMismatch : Env :=
  ⟨[("int", .sc .sInt mIntEmpty), ("string", .sc .sStr mStrEmpty)],
   [("____xs_0____", "int"), ("z", "string")]⟩

/-- Modelled from the spec, for refinement comparison only: the
concatenation of a list of output fragments. -/
def specConcat : List String → String
  | [] => ""
  | x :: xs => x ++ specConcat xs

/-- The int table produced by binding a to 1 and then b to 2. -/
def mPrintOrder : VarMapImpl Int :=
  (VarMapImpl.Set ⟨"int", true, []⟩ "a" (1 : Int)).Set "b" (2 : Int)

theorem lookupA_updateA {α : Type} (l : List (String × α)) (k : String)
    (v : α) (k2 : String) :
    lookupA (updateA l k v) k2 = if k2 = k then some v else lookupA l k2 := by
  induction l with
  | nil =>
    by_cases h : k = k2
    · subst h; simp [updateA, lookupA]
    · have h2 : ¬(k2 = k) := fun hh => h hh.symm
      simp [updateA, lookupA, h, h2]
  | cons p t ih =>
    obtain ⟨a, b⟩ := p
    by_cases hak : a = k
    · subst hak
      by_cases h : a = k2
      · subst h; simp [updateA, lookupA]
      · have h2 : ¬(k2 = a) := fun hh => h hh.symm
        simp [updateA, lookupA, h, h2]
    · by_cases h : a = k2
      · have h2 : ¬(k2 = k) := fun hh => hak (h.trans hh)
        simp [updateA, lookupA, hak, h, h2]
      · simp [updateA, lookupA, hak, h, ih]

theorem lookupA_insertA {α : Type} (l : List (String × α)) (k : String)
    (v : α) (k2 : String) :
    lookupA (insertA l k v) k2 = if k2 = k then some v else lookupA l k2 := by
  by_cases hp : (lookupA l k).isSome
  · simp [insertA, hp, lookupA_updateA]
  · by_cases h : k = k2
    · subst h; simp [insertA, hp, lookupA]
    · have h2 : ¬(k2 = k) := fun hh => h hh.symm
      simp [insertA, hp, lookupA, h, h2]

theorem castScalar_self (s : STy) (m : VarMapImpl s.interp) :
    Table.castScalar s (.sc s m) = some m := by
  simp [Table.castScalar]

theorem alias_none_of_not_defined {T : Type}
    (cast : Table → Option (VarMapImpl T)) (dflt : T)
    (env : Env) (m : VarMapImpl T) (varname : String) (st : STok)
    (h : env.Defined st.Peek = false) :
    readAndSetFromExistingVariable cast dflt env m varname st = none := by
  simp [readAndSetFromExistingVariable, h]

theorem scalarReadAndSet_literal (env : Env) (s : STy)
    (m : VarMapImpl s.interp) (varname : String) (st : STok) (v : s.interp)
    (hnd : env.Defined st.Peek = false) (hp : parseLit s st.Peek = some v) :
    scalarReadAndSet env s m varname st = .ok (m.Set varname v, st.adv) := by
  simp [scalarReadAndSet, alias_none_of_not_defined _ _ _ _ _ _ hnd, hp]

theorem EnvReadAndSet_scalar_literal (fuel : Nat) (env : Env)
    (vn : String) (st : STok) (ty : String) (s : STy)
    (em : VarMapImpl s.interp) (v : s.interp)
    (hTbl : env.GetVarMapForType ty = some (.sc s em))
    (hnd : lookupA (insertA env.types vn ty) st.Peek = none)
    (hp : parseLit s st.Peek = some v) :
    EnvReadAndSet (fuel + 1) env vn st ty =
      .ok (⟨updateA env.tables ty (.sc s (em.Set vn v)),
            insertA env.types vn ty⟩, st.adv) := by
  have hnd2 :
      Env.Defined ⟨env.tables, insertA env.types vn ty⟩ st.Peek = false := by
    simp [Env.Defined, hnd]
  simp [EnvReadAndSet, hTbl,
    scalarReadAndSet_literal _ _ _ _ _ _ hnd2 hp]

theorem length_filterMap_of_isSome {α β : Type} (f : α → Option β) :
    ∀ l : List α, (∀ e ∈ l, (f e).isSome) →
      (l.filterMap f).length = l.length := by
  intro l
  induction l with
  | nil => intro _; simp
  | cons a t ih =>
    intro h
    obtain ⟨b, hb⟩ := Option.isSome_iff_exists.mp (h a (by simp))
    simp [hb, ih (fun e he => h e (by simp [he]))]

theorem lookupA_updateA_self {α : Type} (l : List (String × α)) (k : String)
    (v : α) : lookupA (updateA l k v) k = some v := by
  simp [lookupA_updateA]

theorem lookupA_insertA_self {α : Type} (l : List (String × α)) (k : String)
    (v : α) : lookupA (insertA l k v) k = some v := by
  simp [lookupA_insertA]

theorem Get_Set_self {T : Type} (m : VarMapImpl T) (k : String) (v d : T) :
    (m.Set k v).Get k d = (true, v) := by
  simp [VarMapImpl.Get, VarMapImpl.Set, lookupA_insertA]

theorem vecLoopF_literals (env : Env) (s : STy) (ety : String)
    (em : VarMapImpl s.interp)
    (hTbl : env.GetVarMapForType ety = some (.sc s em))
    (g : Nat) (varname : String) (m : VarMapImpl (List s.interp)) :
    ∀ (es : List String) (fuel idx : Nat) (acc : List s.interp)
      (rest : List String) (prev : String) (pos : Nat),
      es.length + 1 ≤ fuel →
      (∀ e ∈ es, (parseLit s e).isSome ∧ lookupA env.types e = none ∧
        e ≠ "," ∧ e ≠ "\x7d" ∧
        ∀ j, j < idx + es.length → e ≠ synthName varname j) →
      vecLoopF (EnvReadAndSet (g + 1)) s ety fuel env m varname
        ⟨commaSep es ++ "\x7d" :: rest, prev, pos⟩ acc idx
      = .ok (m.Set varname (acc ++ es.filterMap (parseLit s)),
             ⟨rest, "\x7d", pos + (commaSep es).length + 1⟩) := by
  intro es
  induction es with
  | nil =>
    intro fuel idx acc rest prev pos hFuel hAll
    match fuel, hFuel with
    | f + 1, _ =>
      simp [vecLoopF, commaSep, STok.Peek, STok.adv]
  | cons e es2 ih =>
    intro fuel idx acc rest prev pos hFuel hAll
    match fuel, hFuel with
    | f + 1, hFuel =>
      obtain ⟨hpS, hLk, hComma, hBrace, hSynth⟩ := hAll e (by simp)
      obtain ⟨v, hv⟩ := Option.isSome_iff_exists.mp hpS
      have hSynthIdx : e ≠ synthName varname idx := by
        refine hSynth idx ?_
        simp only [List.length_cons]
        omega
      have hndL :
          lookupA (insertA env.types (synthName varname idx) ety) e =
            none := by
        rw [lookupA_insertA]
        simp [hSynthIdx, hLk]
      cases es2 with
      | nil =>
        have hRec := EnvReadAndSet_scalar_literal g env
          (synthName varname idx) ⟨e :: "\x7d" :: rest, prev, pos⟩ ety s em v
          hTbl (by simpa [STok.Peek] using hndL) (by simp [STok.Peek, hv])
        simp only [STok.adv, STok.Peek, List.head?_cons, Option.getD_some,
          List.tail_cons] at hRec
        have hih := ih f (idx + 1) (acc ++ [v]) rest e (pos + 1)
          (by simp only [List.length_nil, List.length_cons] at hFuel ⊢; omega)
          (by intro x hx; simp at hx)
        simp only [commaSep, List.nil_append] at hih
        simp only [commaSep, List.cons_append, List.nil_append]
        simp only [vecLoopF, Env.Copy, STok.Peek, STok.adv, List.head?_cons,
          Option.getD_some, List.tail_cons]
        rw [hRec]
        simp [Env.GetVarMapForType, lookupA_updateA_self, castScalar_self,
          Get_Set_self, STok.Peek, STok.adv, hBrace, hih, hv,
          Nat.add_assoc, Nat.add_comm, Nat.add_left_comm]
      | cons e2 es3 =>
        have hRec := EnvReadAndSet_scalar_literal g env
          (synthName varname idx)
          ⟨e :: "," :: (commaSep (e2 :: es3) ++ "\x7d" :: rest), prev, pos⟩
          ety s em v hTbl (by simpa [STok.Peek] using hndL)
          (by simp [STok.Peek, hv])
        simp only [STok.adv, STok.Peek, List.head?_cons, Option.getD_some,
          List.tail_cons] at hRec
        have hih := ih f (idx + 1) (acc ++ [v]) rest "," (pos + 1 + 1)
          (by simp only [List.length_cons] at hFuel ⊢; omega)
          (by
            intro x hx
            obtain ⟨a, b, c, d, hS⟩ := hAll x (by simp [hx])
            refine ⟨a, b, c, d, fun j hj => hS j ?_⟩
            simp only [List.length_cons] at hj ⊢
            omega)
        simp only [commaSep, List.cons_append]
        simp only [vecLoopF, Env.Copy, STok.Peek, STok.adv, List.head?_cons,
          Option.getD_some, List.tail_cons]
        rw [hRec]
        simp only [List.append_assoc, List.singleton_append] at hih
        simp [Env.GetVarMapForType, lookupA_updateA_self, castScalar_self,
          Get_Set_self, STok.Peek, STok.adv, hBrace, hih, hv,
          Nat.add_assoc, Nat.add_comm, Nat.add_left_comm]

theorem scalarReadAndSet_cases (env : Env) (s : STy)
    (em : VarMapImpl s.interp) (vn : String) (st : STok) :
    (∃ m2 st2, scalarReadAndSet env s em vn st = .ok (m2, st2))
    ∨ (∃ p t, scalarReadAndSet env s em vn st = .error (.initError p t)) := by
  unfold scalarReadAndSet
  cases h : readAndSetFromExistingVariable (Table.castScalar s) s.dflt
      env em vn st with
  | some pr =>
    exact .inl ⟨pr.1, pr.2, by simp⟩
  | none =>
    cases h2 : parseLit s st.Peek with
    | some v => exact .inl ⟨em.Set vn v, st.adv, by simp [h2]⟩
    | none => exact .inr ⟨st.pos, st.Peek, by simp [h2]⟩

theorem EnvReadAndSet_sc_shape (g : Nat) (env : Env) (vn : String)
    (st : STok) (ty : String) (s : STy) (em : VarMapImpl s.interp)
    (hTbl : env.GetVarMapForType ty = some (.sc s em)) :
    (∃ e, EnvReadAndSet g env vn st ty = .error e ∧ e ≠ PError.nullDeref)
    ∨ (∃ em2 st2, EnvReadAndSet g env vn st ty =
        .ok (⟨updateA env.tables ty (.sc s em2), insertA env.types vn ty⟩,
             st2)) := by
  cases g with
  | zero => exact .inl ⟨.outOfFuel, rfl, by simp⟩
  | succ g2 =>
    rcases scalarReadAndSet_cases
        ⟨env.tables, insertA env.types vn ty⟩ s em vn st with
      ⟨m2, st2, hS⟩ | ⟨p, t, hS⟩
    · exact .inr ⟨m2, st2, by simp [EnvReadAndSet, hTbl, hS]⟩
    · exact .inl ⟨.initError p t, by simp [EnvReadAndSet, hTbl, hS], by simp⟩

theorem print_foldl_concat {T : Type} (name : String) (f : T → String) :
    ∀ (l : List (String × T)) (acc : String),
      List.foldl
        (fun os p => os ++ name ++ " " ++ p.1 ++ " = " ++ f p.2 ++ ";\n")
        acc l
      = acc ++ specConcat (l.map fun p => specPrintLine name p.1 (f p.2)) := by
  intro l
  induction l with
  | nil => intro acc; simp [specConcat, String.append_empty]
  | cons p t ih =>
    intro acc
    simp only [List.foldl_cons, List.map_cons, specConcat]
    rw [ih]
    simp [specPrintLine, String.append_assoc]

theorem vsVectorLoop_join {T : Type} (f : T → String) :
    ∀ (xs : List T) (acc : String),
      vsVectorLoop f acc xs = specCommaJoin (acc :: xs.map f) := by
  intro xs
  induction xs with
  | nil => intro acc; simp [vsVectorLoop, specCommaJoin]
  | cons e rest ih =>
    intro acc
    simp only [vsVectorLoop, List.map_cons]
    rw [ih]
    cases hr : rest.map f with
    | nil => simp [specCommaJoin]
    | cons y ys => simp [specCommaJoin, String.append_assoc]

/-- C1: for every call to the vector table ReadAndSet that is not
handled by alias resolution (the peeked opening brace is not a defined
variable name), parsing a brace-enclosed list of literal element tokens
binds varname to a sequence of exactly as many elements as appear in
the list, in source order, each element obtained by the recursive
per-element parse in an ephemeral environment copy; the empty braced
list binds varname to the empty sequence (the es equal to nil
instance). -/
theorem claim1_vector_grammar (env : Env) (s : STy) (ety : String)
    (em : VarMapImpl s.interp) (m : VarMapImpl (List s.interp))
    (varname : String) (es rest : List String) (prev : String) (pos : Nat)
    (fuel : Nat)
    (hTbl : env.GetVarMapForType ety = some (.sc s em))
    (hFuel : es.length + 1 ≤ fuel)
    (hOpen : env.Defined "\x7b" = false)
    (hAll : ∀ e ∈ es, (parseLit s e).isSome ∧ lookupA env.types e = none ∧
      e ≠ "," ∧ e ≠ "\x7d" ∧
      ∀ j, j < es.length → e ≠ synthName varname j) :
    vecReadAndSet fuel env s ety m varname
      ⟨"\x7b" :: (commaSep es ++ "\x7d" :: rest), prev, pos⟩
    = .ok (m.Set varname (es.filterMap (parseLit s)),
           ⟨rest, "\x7d", pos + 1 + (commaSep es).length + 1⟩)
    ∧ (es.filterMap (parseLit s)).length = es.length := by
  constructor
  · match fuel, hFuel with
    | g + 1, hFuel =>
      have hAlias := alias_none_of_not_defined (Table.castVec s)
        ([] : List s.interp) env m varname
        ⟨"\x7b" :: (commaSep es ++ "\x7d" :: rest), prev, pos⟩
        (by simpa [STok.Peek] using hOpen)
      have hl := vecLoopF_literals env s ety em hTbl g varname m es
        (g + 1) 0 [] rest "\x7b" (pos + 1) hFuel
        (by
          intro e he
          obtain ⟨a, b, c, d, hS⟩ := hAll e he
          exact ⟨a, b, c, d, fun j hj => hS j (by omega)⟩)
      simp only [List.nil_append] at hl
      simp only [vecReadAndSet, vecReadAndSetF, hAlias, STok.Peek, STok.adv,
        List.head?_cons, Option.getD_some, List.tail_cons]
      simp [hl, Nat.add_assoc, Nat.add_comm, Nat.add_left_comm]
  · exact length_filterMap_of_isSome _ es (fun e he => (hAll e he).1)

/-- Witness for claim1_vector_grammar: reading the braced list of the
two int literals 3 and 7 binds xs to the two-element sequence. -/
theorem claim1_witness :
    vecReadAndSet 3 envVec .sInt "int" mVecIntEmpty "xs"
      ⟨["\x7b", "3", ",", "7", "\x7d"], "", 0⟩
    = .ok (mVecIntEmpty.Set "xs" [(3 : Int), 7], ⟨[], "\x7d", 5⟩) :=
  (claim1_vector_grammar envVec .sInt "int" mIntEmpty mVecIntEmpty "xs"
    ["3", "7"] [] "" 0 3 rfl (by decide) rfl (by decide)).1

/-- C2: after the primitive variable x is bound to a, binding y through
alias resolution (the peeked token is x, the table of x is of the same
concrete kind, and the value fetch succeeds) consumes the token, binds
y to the value a in this table, and afterwards Get of y and Get of x
both return a; rebinding x to a different value b leaves the value of y
unchanged, because the alias copied the value. -/
theorem claim2_alias_value_copy (env : Env) (s : STy)
    (m : VarMapImpl s.interp) (x y : String) (a b : s.interp) (st : STok)
    (hPeek : st.Peek = x)
    (hDef : env.Defined x = true)
    (hMap : env.GetVarMap x = some (.sc s m))
    (hGet : lookupA m.vars x = some a)
    (hxy : y ≠ x) :
    readAndSetFromExistingVariable (Table.castScalar s) s.dflt env m y st
      = some (m.Set y a, st.adv)
    ∧ (m.Set y a).Get y s.dflt = (true, a)
    ∧ (m.Set y a).Get x s.dflt = (true, a)
    ∧ ((m.Set y a).Set x b).Get y s.dflt = (true, a) := by
  have hyx : ¬(x = y) := fun hh => hxy hh.symm
  refine ⟨?_, ?_, ?_, ?_⟩
  · simp [readAndSetFromExistingVariable, hPeek, hDef, hMap,
      castScalar_self, VarMapImpl.Get, hGet]
  · exact Get_Set_self m y a s.dflt
  · simp [VarMapImpl.Get, VarMapImpl.Set, lookupA_insertA, hyx, hGet]
  · simp [VarMapImpl.Get, VarMapImpl.Set, lookupA_insertA, hxy, hyx, hGet]

/-- Witness for claim2_alias_value_copy: with x bound to 5 in the int
table, aliasing y to x yields 5 for both, and rebinding x to 9 leaves
y at 5. -/
theorem claim2_witness :
    readAndSetFromExistingVariable (Table.castScalar .sInt)
      (STy.dflt .sInt) envAlias mIntX "y" ⟨["x"], "", 0⟩
      = some (mIntX.Set "y" 5, ⟨[], "x", 1⟩)
    ∧ (mIntX.Set "y" 5).Get "y" (STy.dflt .sInt) = (true, 5)
    ∧ (mIntX.Set "y" 5).Get "x" (STy.dflt .sInt) = (true, 5)
    ∧ ((mIntX.Set "y" 5).Set "x" 9).Get "y" (STy.dflt .sInt) = (true, 5) :=
  claim2_alias_value_copy envAlias .sInt mIntX "x" "y" (5 : Int) (9 : Int)
    ⟨["x"], "", 0⟩ rfl rfl rfl rfl (by decide)

/-- C3: when the peeked token is a variable defined in the owning
Environment but its table is not of the same concrete kind as the
current table (the modelled dynamic_cast yields none), alias resolution
returns true without consuming the identifier token, without binding
varname, and without raising an error: the result carries this table
and the stream unchanged. -/
theorem claim3_alias_type_mismatch {T : Type}
    (cast : Table → Option (VarMapImpl T)) (dflt : T) (env : Env)
    (m : VarMapImpl T) (varname : String) (st : STok) (tbl : Table)
    (hDef : env.Defined st.Peek = true)
    (hMap : env.GetVarMap st.Peek = some tbl)
    (hCast : cast tbl = none) :
    readAndSetFromExistingVariable cast dflt env m varname st
      = some (m, st) := by
  simp [readAndSetFromExistingVariable, hDef, hMap, hCast]

/-- Witness for claim3_alias_type_mismatch: reading into the int table
while the peeked token z names a string variable leaves the table and
the stream untouched and reports the assignment as handled. -/
theorem claim3_witness :
    readAndSetFromExistingVariable (Table.castScalar .sInt)
      (STy.dflt .sInt) envMismatch mIntEmpty "y" ⟨["z"], "", 0⟩
      = some (mIntEmpty, ⟨["z"], "", 0⟩) :=
  claim3_alias_type_mismatch (Table.castScalar .sInt) (STy.dflt .sInt)
    envMismatch mIntEmpty "y" ⟨["z"], "", 0⟩ (.sc .sStr mStrEmpty)
    rfl rfl rfl

/-- C4: when the peeked token names a defined variable whose table is
of the matching concrete kind but the value fetch fails (the name is in
the name-to-type index with no stored value), alias resolution consumes
the identifier token, produces no binding for varname, raises no error,
and returns true. -/
theorem claim4_alias_defined_but_unset {T : Type}
    (cast : Table → Option (VarMapImpl T)) (dflt : T) (env : Env)
    (m : VarMapImpl T) (varname : String) (st : STok) (tbl : Table)
    (tvm : VarMapImpl T)
    (hDef : env.Defined st.Peek = true)
    (hMap : env.GetVarMap st.Peek = some tbl)
    (hCast : cast tbl = some tvm)
    (hGet : lookupA tvm.vars st.Peek = none) :
    readAndSetFromExistingVariable cast dflt env m varname st
      = some (m, st.adv) := by
  simp [readAndSetFromExistingVariable, hDef, hMap, hCast,
    VarMapImpl.Get, hGet]

/-- Witness for claim4_alias_defined_but_unset: x is indexed as an int
but the int table stores nothing for it, so the alias consumes x and
binds nothing. -/
theorem claim4_witness :
    readAndSetFromExistingVariable (Table.castScalar .sInt)
      (STy.dflt .sInt) envUnsetX mIntEmpty "y" ⟨["x"], "", 0⟩
      = some (mIntEmpty, ⟨[], "x", 1⟩) :=
  claim4_alias_defined_but_unset (Table.castScalar .sInt) (STy.dflt .sInt)
    envUnsetX mIntEmpty "y" ⟨["x"], "", 0⟩ (.sc .sInt mIntEmpty) mIntEmpty
    rfl rfl rfl rfl

/-- C5: for a vector table ReadAndSet call not handled by alias
resolution, a next token that is not an opening brace fails with the
syntax error reporting the PeekPrevTokenStart stream position (no
binding is produced: the error result carries no table); and after a
successfully parsed element, a next token that is neither a comma nor a
closing brace fails with the syntax error reporting the PeekTokenStart
stream position of that token. -/
theorem claim5_syntax_errors :
    (∀ (fuel : Nat) (env : Env) (s : STy) (ety : String)
       (m : VarMapImpl (List s.interp)) (varname : String) (st : STok),
       env.Defined st.Peek = false → st.Peek ≠ "\x7b" →
       vecReadAndSet fuel env s ety m varname st =
         .error (.syntaxErrorOpenBrace (st.pos - 1) st.prev))
    ∧ (∀ (g pos : Nat) (env : Env) (s : STy) (ety : String)
         (em : VarMapImpl s.interp) (m : VarMapImpl (List s.interp))
         (varname e bad : String) (rest : List String) (prev : String),
         env.GetVarMapForType ety = some (.sc s em) →
         env.Defined "\x7b" = false →
         lookupA env.types e = none →
         (parseLit s e).isSome →
         e ≠ synthName varname 0 →
         e ≠ "\x7d" →
         bad ≠ "," → bad ≠ "\x7d" →
         vecReadAndSet (g + 1) env s ety m varname
           ⟨"\x7b" :: e :: bad :: rest, prev, pos⟩ =
           .error (.syntaxErrorSep (pos + 1 + 1) bad)) := by
  constructor
  · intro fuel env s ety m varname st hDef hBr
    have hAlias := alias_none_of_not_defined (Table.castVec s)
      ([] : List s.interp) env m varname st hDef
    simp [vecReadAndSet, vecReadAndSetF, hAlias, hBr]
  · intro g pos env s ety em m varname e bad rest prev hTbl hOpen hLk hpS
      hSynth0 hBrace hBad1 hBad2
    obtain ⟨v, hv⟩ := Option.isSome_iff_exists.mp hpS
    have hndL :
        lookupA (insertA env.types (synthName varname 0) ety) e = none := by
      rw [lookupA_insertA]
      simp [hSynth0, hLk]
    have hRec := EnvReadAndSet_scalar_literal g env (synthName varname 0)
      ⟨e :: bad :: rest, "\x7b", pos + 1⟩ ety s em v hTbl
      (by simpa [STok.Peek] using hndL) (by simp [STok.Peek, hv])
    simp only [STok.adv, STok.Peek, List.head?_cons, Option.getD_some,
      List.tail_cons] at hRec
    have hAlias := alias_none_of_not_defined (Table.castVec s)
      ([] : List s.interp) env m varname
      ⟨"\x7b" :: e :: bad :: rest, prev, pos⟩
      (by simpa [STok.Peek] using hOpen)
    simp only [vecReadAndSet, vecReadAndSetF, hAlias, STok.Peek, STok.adv,
      List.head?_cons, Option.getD_some, List.tail_cons]
    simp only [vecLoopF, Env.Copy, STok.Peek, List.head?_cons,
      Option.getD_some, List.tail_cons]
    rw [hRec]
    simp [Env.GetVarMapForType, lookupA_updateA_self, castScalar_self,
      Get_Set_self, STok.Peek, hBrace, hBad1, hBad2]

/-- Witness for claim5_syntax_errors: a missing opening brace and a
missing separator both fail with the corresponding syntax error at the
reported position. -/
theorem claim5_witness :
    vecReadAndSet 1 envVec .sInt "int" mVecIntEmpty "xs" ⟨["8"], "", 0⟩ =
      .error (.syntaxErrorOpenBrace 0 "")
    ∧ vecReadAndSet 1 envVec .sInt "int" mVecIntEmpty "xs"
        ⟨["\x7b", "3", "9", "\x7d"], "", 0⟩ =
      .error (.syntaxErrorSep 2 "9") :=
  ⟨claim5_syntax_errors.1 1 envVec .sInt "int" mVecIntEmpty "xs"
      ⟨["8"], "", 0⟩ rfl (by decide),
   claim5_syntax_errors.2 0 0 envVec .sInt "int" mIntEmpty mVecIntEmpty
      "xs" "3" "9" ["\x7d"] "" rfl rfl rfl (by decide) (by decide)
      (by decide) (by decide) (by decide)⟩

/-- C8: in a vector ReadAndSet loop iteration, when the recursive
element parse succeeds but the synthesized element binding cannot be
fetched from the element type table of the ephemeral environment, the
operation fails with the element-initialization error identifying the
element index and the enclosing variable name, and no binding of
varname is produced (the error result carries no table). -/
theorem claim8_element_init_error (g fuel : Nat) (env env2 : Env)
    (s : STy) (ety : String) (m : VarMapImpl (List s.interp))
    (varname : String) (st st2 : STok) (acc : List s.interp) (idx : Nat)
    (tbl : Table) (tvm : VarMapImpl s.interp)
    (hne : st.Peek ≠ "\x7d")
    (hRec : EnvReadAndSet g env (synthName varname idx) st ety =
      .ok (env2, st2))
    (hTbl2 : env2.GetVarMapForType ety = some tbl)
    (hCast : Table.castScalar s tbl = some tvm)
    (hGet : lookupA tvm.vars (synthName varname idx) = none) :
    vecLoopF (EnvReadAndSet g) s ety (fuel + 1) env m varname st acc idx =
      .error (.elementInitError idx varname) := by
  simp [vecLoopF, Env.Copy, hne, hRec, hTbl2, hCast, VarMapImpl.Get, hGet]

/-- Witness for claim8_element_init_error: the element token z names a
string variable while the element type is int, so the inner parse
reports success without binding the synthesized name, the fetch fails,
and the loop reports the element-initialization error for element 0 of
xs. -/
theorem claim8_witness :
    vecLoopF (EnvReadAndSet 1) .sInt "int" 1 envMismatch mVecIntEmpty "xs"
      ⟨["z", "\x7d"], "", 0⟩ [] 0 =
      .error (.elementInitError 0 "xs") :=
  claim8_element_init_error 1 0 envMismatch envAfterMismatch .sInt "int"
    mVecIntEmpty "xs" ⟨["z", "\x7d"], "", 0⟩ ⟨["z", "\x7d"], "", 0⟩ [] 0
    (.sc .sInt mIntEmpty) mIntEmpty (by decide) rfl rfl rfl rfl

/-- C9: Get returns true and copies the stored value into the
out-parameter exactly when varname is bound in this table; when it is
unbound it returns false and leaves the out-parameter untouched.  Get
is const over the pure table state: it takes the table and returns only
the flag and the out-parameter, so the table and all other bindings are
unchanged by construction. -/
theorem claim9_get_contract {T : Type} (m : VarMapImpl T) (k : String)
    (v0 : T) :
    (∀ w, lookupA m.vars k = some w → m.Get k v0 = (true, w))
    ∧ (lookupA m.vars k = none → m.Get k v0 = (false, v0))
    ∧ m.Defined k = (m.Get k v0).1 := by
  refine ⟨?_, ?_, ?_⟩
  · intro w hw
    simp [VarMapImpl.Get, hw]
  · intro hn
    simp [VarMapImpl.Get, hn]
  · cases h : lookupA m.vars k <;>
      simp [VarMapImpl.Get, VarMapImpl.Defined, h]

/-- Witness for claim9_get_contract: in the table binding x to 5, Get
of x succeeds with 5 and Get of y fails leaving the out-parameter 0. -/
theorem claim9_witness :
    mIntX.Get "x" 0 = (true, 5) ∧ mIntX.Get "y" 0 = (false, 0) :=
  ⟨(claim9_get_contract mIntX "x" 0).1 5 rfl,
   (claim9_get_contract mIntX "y" 0).2.1 rfl⟩

/-- C10: when the owning environment (whose per-iteration ephemeral
copy the element parse runs in) has a scalar table of the matching
element kind registered under the declared element type name, the
unchecked downcast in the vector element loop always yields a table, so
the fetch of the synthesized binding never dereferences a null table:
the loop never produces the nullDeref outcome. -/
theorem claim10_no_null_deref (env : Env) (s : STy) (ety : String)
    (em : VarMapImpl s.interp) (m : VarMapImpl (List s.interp))
    (varname : String) (g : Nat)
    (hTbl : env.GetVarMapForType ety = some (.sc s em)) :
    ∀ (fuel : Nat) (st : STok) (acc : List s.interp) (idx : Nat),
      vecLoopF (EnvReadAndSet g) s ety fuel env m varname st acc idx ≠
        .error PError.nullDeref := by
  intro fuel
  induction fuel with
  | zero =>
    intro st acc idx
    simp [vecLoopF]
  | succ f ih =>
    intro st acc idx
    by_cases hP : st.Peek = "\x7d"
    · simp [vecLoopF, hP]
    · rcases EnvReadAndSet_sc_shape g env (synthName varname idx) st ety
          s em hTbl with ⟨e, hE, hne⟩ | ⟨em2, st2, hE⟩
      · simp [vecLoopF, Env.Copy, hP, hE, hne]
      · cases hGp : em2.Get (synthName varname idx) s.dflt with
        | mk bflag w =>
          cases bflag with
          | false =>
            simp [vecLoopF, Env.Copy, hP, hE, Env.GetVarMapForType,
              lookupA_updateA_self, castScalar_self, hGp]
          | true =>
            by_cases hsep : st2.Peek ≠ "," ∧ st2.Peek ≠ "\x7d"
            · simp [vecLoopF, Env.Copy, hP, hE, Env.GetVarMapForType,
                lookupA_updateA_self, castScalar_self, hGp, hsep]
            · simp [vecLoopF, Env.Copy, hP, hE, Env.GetVarMapForType,
                lookupA_updateA_self, castScalar_self, hGp, hsep, ih]

/-- Witness for claim10_no_null_deref: with the int table registered
under the element type name int, a loop run on a concrete stream never
hits the null dereference. -/
theorem claim10_witness :
    vecLoopF (EnvReadAndSet 1) .sInt "int" 1 envVec mVecIntEmpty "xs"
      ⟨["3", "\x7d"], "", 0⟩ [] 0 ≠ .error PError.nullDeref :=
  claim10_no_null_deref envVec .sInt "int" mIntEmpty mVecIntEmpty "xs" 1
    rfl 1 ⟨["3", "\x7d"], "", 0⟩ [] 0

/-- C6 (amended): Print writes exactly one line per bound variable of
the form typeName space varname equals formattedValue semicolon
newline, with entries appearing in the iteration order of the
underlying hash table, which is unspecified by C++ and is not insertion
order; Print is const and takes no token stream, so it neither modifies
the table nor reads the stream. -/
theorem claim6_print_lines {T : Type} (m : VarMapImpl T)
    (f : T → String) :
    m.Print f =
      specConcat (m.vars.map fun p => specPrintLine m.name p.1 (f p.2)) := by
  unfold VarMapImpl.Print
  rw [print_foldl_concat]
  exact String.empty_append _

/-- Counterexample to C6 as stated: in the table where a was inserted
first and b second, Print emits the line for b before the line for a,
so the output differs from the insertion-order rendering. -/
theorem claim6_counterexample :
    mPrintOrder.Print valueStringInt =
      specPrintLine "int" "b" (valueStringInt 2) ++
        specPrintLine "int" "a" (valueStringInt 1)
    ∧ mPrintOrder.Print valueStringInt ≠
      specPrintLine "int" "a" (valueStringInt 1) ++
        specPrintLine "int" "b" (valueStringInt 2) := by
  constructor
  · rfl
  · decide

/-- C7: the value formatter renders every text value wrapped in double
quotes, every boolean as the literal true or false, and every sequence
as the brace-enclosed comma-separated rendering that applies the
element formatter recursively, the empty sequence rendering as the
empty braces. -/
theorem claim7_formatter :
    (∀ s : String, valueStringString s = "\"" ++ s ++ "\"")
    ∧ (valueStringBool true = "true" ∧ valueStringBool false = "false")
    ∧ (∀ (T : Type) (f : T → String) (l : List T),
        valueStringVector f l = specBraceList (l.map f))
    ∧ (∀ (T : Type) (f : T → String),
        valueStringVector f ([] : List T) = "\x7b\x7d") := by
  refine ⟨fun s => rfl, ⟨rfl, rfl⟩, ?_, ?_⟩
  · intro T f l
    cases l with
    | nil => rfl
    | cons x xs =>
      simp only [valueStringVector, List.map_cons]
      rw [vsVectorLoop_join]
      rfl
  · intro T f
    rfl
